import Mathlib

/-!
Verification of the query composition and transactional mutation layer of the
drizzle-demo repository.  The data model follows `src/drizzle/schema.ts`
(tables `users`, `tasks`, `categories` with their uniqueness and foreign-key
constraints), the operations follow the drizzle calls issued by the demo
script (`index.ts`) and the user-manager CLI: `eq`, `like`, `gt`, `lt`,
`gte`, `lte`, `and`, `or` predicates, `select ... where ... orderBy ...
limit ... offset`, `insert ... returning`, `update ... set ... returning`,
`delete ... returning`, and `db.transaction`.  SQL comparison semantics on a
NULL `age` follow PostgreSQL three-valued logic: a comparison against NULL is
UNKNOWN, and a WHERE clause keeps only rows evaluating to TRUE; since the
predicates built by the scripts contain no negation, mapping UNKNOWN to
`false` is an exact embedding of which rows are returned.
-/

namespace DrizzleDemo

/-- A stored row of the `users` table, per `src/drizzle/schema.ts`:
`id serial primaryKey`, `username varchar(255) notNull unique`,
`email text notNull unique`, `age integer default 0` (nullable). -/
structure UserRow where
  id : Nat
  username : String
  email : String
  age : Option Int
deriving DecidableEq, Repr

/-- The state of the `users` table: the stored rows plus the `serial`
sequence that backs the `id` column (next value to assign; PostgreSQL
sequences only ever move forward). -/
structure UsersState where
  rows : List UserRow
  nextId : Nat
deriving DecidableEq, Repr

/-- Case-sensitive substring test on character lists, the meaning of the SQL
pattern `LIKE concat(percent, sub, percent)` used by the scripts. -/
def charListContains (sub : List Char) : List Char → Bool
  | [] => sub.isPrefixOf []
  | c :: rest => sub.isPrefixOf (c :: rest) || charListContains sub rest

/-- `likeContains s sub` is PostgreSQL `s LIKE concat(percent, sub, percent)`
for a wildcard-free `sub`: case-sensitive substring containment. -/
def likeContains (s sub : String) : Bool :=
  charListContains sub.data s.data

/-- Predicate AST over `users` rows: exactly the drizzle condition builders
the repository applies to the `users` table (`eq` on email / username / id,
`like` on username, `gt` / `lt` / `gte` / `lte` on age, `and`, `or`). -/
inductive Pred where
  | eqEmail (v : String)
  | eqUsername (v : String)
  | eqId (v : Nat)
  | likeUsername (sub : String)
  | gtAge (v : Int)
  | ltAge (v : Int)
  | gteAge (v : Int)
  | lteAge (v : Int)
  | and (p q : Pred)
  | or (p q : Pred)
deriving DecidableEq, Repr

/-- Does a row satisfy a predicate?  Comparisons of a NULL `age` are SQL
UNKNOWN, hence the row is not kept: they evaluate to `false` here (the
predicate language has no negation, so this is exact). -/
def evalPred : Pred → UserRow → Bool
  | .eqEmail v, r => r.email == v
  | .eqUsername v, r => r.username == v
  | .eqId v, r => r.id == v
  | .likeUsername sub, r => likeContains r.username sub
  | .gtAge v, r => match r.age with
    | some a => decide (v < a)
    | none => false
  | .ltAge v, r => match r.age with
    | some a => decide (a < v)
    | none => false
  | .gteAge v, r => match r.age with
    | some a => decide (v ≤ a)
    | none => false
  | .lteAge v, r => match r.age with
    | some a => decide (a ≤ v)
    | none => false
  | .and p q, r => evalPred p r && evalPred q r
  | .or p q, r => evalPred p r || evalPred q r

/-- An optional WHERE clause: `none` means no `.where(...)` call, i.e. every
row matches. -/
def matchesOpt (p : Option Pred) (r : UserRow) : Bool :=
  match p with
  | none => true
  | some p => evalPred p r

/-- `db.select().from(users).where(p)`: the rows satisfying `p`. -/
def find (s : UsersState) (p : Option Pred) : List UserRow :=
  s.rows.filter (matchesOpt p)

/-- The search condition built by `searchUser` in the user-manager CLI:
`and(like(users.username, pattern), and(gte(users.age, minAge),
lte(users.age, maxAge)))`. -/
def searchPred (username : String) (minAge maxAge : Int) : Pred :=
  .and (.likeUsername username) (.and (.gteAge minAge) (.lteAge maxAge))

/-- The ORDER BY key for `desc(users.age)`.  PostgreSQL sorts NULLs first in
descending order; encode the key so that NULL compares above every value. -/
def ageDescKey (r : UserRow) : Option Int :=
  r.age

/-- Does `u` sort at-or-before `v` under `ORDER BY age DESC` (NULLs first)? -/
def ageDescLE (u v : UserRow) : Bool :=
  match u.age, v.age with
  | none, _ => true
  | some _, none => false
  | some a, some b => decide (b ≤ a)

/-- Insert one row into a list already sorted by `ageDescLE`. -/
def insertAgeDesc (u : UserRow) : List UserRow → List UserRow
  | [] => [u]
  | v :: rest =>
    if ageDescLE u v then u :: v :: rest else v :: insertAgeDesc u rest

/-- Sort rows by `ORDER BY age DESC` (insertion sort; the stable order of a
deterministic embedding of the ordered result set). -/
def sortAgeDesc : List UserRow → List UserRow
  | [] => []
  | u :: rest => insertAgeDesc u (sortAgeDesc rest)

/-- `db.select().from(users).where(p).orderBy(desc(users.age))`:
the ordered full result set. -/
def findOrdered (s : UsersState) (p : Option Pred) : List UserRow :=
  sortAgeDesc (find s p)

/-- Apply `LIMIT lim OFFSET off` to an ordered result list — SQL skips
`off` rows, then returns at most `lim`. -/
def paginate (l : List UserRow) (lim off : Nat) : List UserRow :=
  (l.drop off).take lim

/-- `db.select().from(users).where(p).orderBy(desc(users.age)).limit(lim)
.offset(off)`, the step-13 pagination query of the demo script. -/
def findPage (s : UsersState) (p : Option Pred) (lim off : Nat) : List UserRow :=
  paginate (findOrdered s p) lim off

/-- The concatenation of the first `n` pages of size `lim`, page `i` being
obtained with `offset = i * lim` — the claim's "stepping the offset by L". -/
def concatPages (s : UsersState) (p : Option Pred) (lim n : Nat) : List UserRow :=
  (List.range n).flatMap (fun i => findPage s p lim (i * lim))

/-- A record passed to `db.insert(users).values(...)`: email and username are
required, `age` is optional — when omitted the column default `0` declared in
`src/drizzle/schema.ts` applies. -/
structure NewUser where
  email : String
  username : String
  age : Option Int
deriving DecidableEq, Repr

/-- Typed failures of the store boundary, per the spec's error taxonomy:
an integrity violation names the offending field; a caller-raised abort is
the error thrown inside a transaction body. -/
inductive DbError where
  | integrityViolation (field : String)
  | abort
deriving DecidableEq, Repr

/-- The row a single VALUES entry creates, with its `serial` identity. -/
def mkRow (nid : Nat) (v : NewUser) : UserRow :=
  { id := nid, username := v.username, email := v.email
    age := some (v.age.getD 0) }

/-- The rows a batch of VALUES entries creates, identities assigned from the
sequence in input order. -/
def mkRows (nid : Nat) : List NewUser → List UserRow
  | [] => []
  | v :: vs => mkRow nid v :: mkRows (nid + 1) vs

/-- Is some value duplicated in the list? -/
def hasDup : List String → Bool
  | [] => false
  | x :: xs => xs.contains x || hasDup xs

/-- Modelled from the spec: the store's enforcement of the
`users_username_unique` and `users_email_unique` constraints declared in
`src/drizzle/schema.ts` lives in PostgreSQL, not in this repository.  A
batched `db.insert(users).values(vs).returning()` either creates every row —
identities assigned in input order — and returns them in input order, or (on
a uniqueness breach, against stored rows or within the batch) fails as a
whole with an integrity violation naming the offending field, creating
nothing: the state component of the error result is the input state. -/
def insertMany (s : UsersState) (vs : List NewUser) :
    Except DbError (List UserRow × UsersState) :=
  let newRows := mkRows s.nextId vs
  let all := s.rows ++ newRows
  if hasDup (all.map (fun r => r.username)) then
    .error (.integrityViolation "username")
  else if hasDup (all.map (fun r => r.email)) then
    .error (.integrityViolation "email")
  else
    .ok (newRows, { rows := all, nextId := s.nextId + vs.length })

/-- A `.set({...})` payload, per the drizzle calls of the repository: any
subset of username, email and age may be given; the `id` column is never part
of a payload (see `updatePayload` in the user-manager CLI). -/
structure UpdatePayload where
  username : Option String
  email : Option String
  age : Option Int
deriving DecidableEq, Repr

/-- Apply a `.set({...})` payload to one row: only the given columns change;
the identity is untouched. -/
def applyPayload (c : UpdatePayload) (r : UserRow) : UserRow :=
  { id := r.id
    username := c.username.getD r.username
    email := c.email.getD r.email
    age := match c.age with | some a => some a | none => r.age }

/-- Modelled from the spec: uniqueness enforcement on UPDATE is PostgreSQL's.
`db.update(users).set(c).where(p).returning()`: every matching row gets the
payload applied; the post-update rows are returned (in table order); a
uniqueness breach fails the whole statement, changing nothing. -/
def updateWhere (s : UsersState) (p : Option Pred) (c : UpdatePayload) :
    Except DbError (List UserRow × UsersState) :=
  let newRows := s.rows.map (fun r => if matchesOpt p r then applyPayload c r else r)
  if hasDup (newRows.map (fun r => r.username)) then
    .error (.integrityViolation "username")
  else if hasDup (newRows.map (fun r => r.email)) then
    .error (.integrityViolation "email")
  else
    .ok ((s.rows.filter (matchesOpt p)).map (applyPayload c),
         { rows := newRows, nextId := s.nextId })

/-- `db.delete(users).where(p).returning()`: removes the matching rows and
returns them in their pre-deletion state.  No table references `users`, so
deletion never breaks a constraint. -/
def deleteWhere (s : UsersState) (p : Option Pred) :
    List UserRow × UsersState :=
  (s.rows.filter (matchesOpt p),
   { rows := s.rows.filter (fun r => !(matchesOpt p r)), nextId := s.nextId })

/-- One operation issued inside a transaction body against `tx`:
the mutations the demo script's transaction bodies perform, plus the
caller-raised abort (`throw new Error('Simulating a rollback')`). -/
inductive TxOp where
  | insertOp (vs : List NewUser)
  | updateOp (p : Option Pred) (c : UpdatePayload)
  | deleteOp (p : Option Pred)
  | abortOp
deriving DecidableEq, Repr

/-- Apply one transaction-body operation to the in-transaction state. -/
def applyOp (s : UsersState) : TxOp → Except DbError UsersState
  | .insertOp vs => (insertMany s vs).map (fun x => x.2)
  | .updateOp p c => (updateWhere s p c).map (fun x => x.2)
  | .deleteOp p => .ok (deleteWhere s p).2
  | .abortOp => .error .abort

/-- Run a transaction body: the ordered operations execute one after the
other, each observing the effects of all prior operations of the body; the
first failure stops the body. -/
def runOps (s : UsersState) : List TxOp → Except DbError UsersState
  | [] => .ok s
  | op :: rest =>
    match applyOp s op with
    | .ok s1 => runOps s1 rest
    | .error e => .error e

/-- Modelled from the spec: the commit / rollback machinery behind
`db.transaction(async (tx) => ...)` lives in PostgreSQL and the driver, not
in this repository.  The coordinator runs the body against the current
state; on success the body's effects become the visible state (commit); if
the body signals failure at any point, every effect performed inside the
unit is discarded — the visible state is the pre-transaction state — and the
failure propagates to the caller with no partial result. -/
def runTransaction (s : UsersState) (body : List TxOp) :
    UsersState × Except DbError Unit :=
  match runOps s body with
  | .ok s1 => (s1, .ok ())
  | .error e => (s, .error e)

/-- A stored row of the `categories` table, per `src/drizzle/schema.ts`:
`id serial primaryKey`, `name varchar(100) notNull` with the
`categories_name_key` uniqueness constraint. -/
structure CategoryRow where
  id : Nat
  name : String
deriving DecidableEq, Repr

/-- A stored row of the `tasks` table, per `src/drizzle/schema.ts`:
`id serial primaryKey`, `title text notNull`, `done boolean default false`,
`created_at timestamp defaultNow`, `category_id integer` nullable with the
`tasks_category_id_fkey` foreign key into `categories.id`. -/
structure TaskRow where
  id : Nat
  title : String
  done : Bool
  createdAt : Nat
  categoryId : Option Nat
deriving DecidableEq, Repr

/-- The joint state of `categories` and `tasks`. -/
structure TaskDb where
  categories : List CategoryRow
  tasks : List TaskRow
deriving DecidableEq, Repr

/-- Modelled from the spec: the foreign-key action is declared in
`src/drizzle/schema.ts` (`tasks_category_id_fkey ... onDelete('set null')`)
and executed by PostgreSQL.  Deleting a category removes it from
`categories` and sets `category_id` to NULL on every task that referenced
it; no task row is deleted. -/
def deleteCategory (d : TaskDb) (cid : Nat) : TaskDb :=
  { categories := d.categories.filter (fun c => c.id != cid)
    tasks := d.tasks.map (fun t =>
      if t.categoryId == some cid then
        { id := t.id, title := t.title, done := t.done
          createdAt := t.createdAt, categoryId := none }
      else t) }

/-- A column of a persisted table description: its name, NOT NULL flag, and
integer default when one is declared. -/
structure ColumnSpec where
  name : String
  notNull : Bool
  intDefault : Option Int
deriving DecidableEq, Repr

/-- The `users` table as created by the migration
(`CREATE TABLE "users" ...`): columns `id serial PRIMARY KEY NOT NULL`,
`username varchar(255) NOT NULL`, `email text NOT NULL` — nothing else. -/
def migrationUsersColumns : List ColumnSpec :=
  [ { name := "id", notNull := true, intDefault := none }
  , { name := "username", notNull := true, intDefault := none }
  , { name := "email", notNull := true, intDefault := none } ]

/-- The `users` table as declared by the schema registry
(`src/drizzle/schema.ts`): `id serial primaryKey`, `username notNull
unique`, `email notNull unique`, `age integer default 0` (nullable). -/
def schemaUsersColumns : List ColumnSpec :=
  [ { name := "id", notNull := true, intDefault := none }
  , { name := "username", notNull := true, intDefault := none }
  , { name := "email", notNull := true, intDefault := none }
  , { name := "age", notNull := false, intDefault := some 0 } ]

/-! Helper lemmas. -/

/-- Filtering with a predicate and then with its negation leaves nothing. -/
theorem filter_not_filter_self (m : UserRow → Bool) (l : List UserRow) :
    (l.filter (fun r => !(m r))).filter m = [] := by
  induction l with
  | nil => rfl
  | cons x xs ih =>
    by_cases h : m x = true <;> simp [List.filter_cons, h, ih]

/-! ### C9 -/

/-- C9: the migration creates `users` with only the `id`, `username` and
`email` columns — no `age` column — while the schema registry declares
`users` with an `age` column of default `0`; the two descriptions of the
table are not equivalent. -/
theorem C9_migration_schema_mismatch :
    migrationUsersColumns.map (fun c => c.name) = ["id", "username", "email"] ∧
    "age" ∉ migrationUsersColumns.map (fun c => c.name) ∧
    (∃ c ∈ schemaUsersColumns, c.name = "age" ∧ c.notNull = false ∧
      c.intDefault = some 0) ∧
    migrationUsersColumns ≠ schemaUsersColumns := by
  refine ⟨rfl, by decide, ⟨⟨"age", false, some 0⟩, by decide, rfl, rfl, rfl⟩, by decide⟩

/-! ### C10 -/

/-- C10: a stored user whose `age` is NULL is never returned by the CLI
search by name and age range: the condition
`and(like(username, pattern), and(gte(age, minAge), lte(age, maxAge)))`
evaluates to not-TRUE on a NULL age for every choice of `minAge` and
`maxAge`, so the row is excluded from the result. -/
theorem C10_null_age_excluded (r : UserRow) (h : r.age = none)
    (u : String) (minAge maxAge : Int) (s : UsersState) :
    evalPred (searchPred u minAge maxAge) r = false ∧
    r ∉ find s (some (searchPred u minAge maxAge)) := by
  have hev : evalPred (searchPred u minAge maxAge) r = false := by
    simp [searchPred, evalPred, h]
  refine ⟨hev, fun hmem => ?_⟩
  have := (List.mem_filter.mp hmem).2
  simp [matchesOpt, hev] at this

/-- Concrete instance of C10: a NULL-aged user is excluded from the search
for pattern "eve" with ages 0 to 100, even when stored. -/
theorem C10_null_age_excluded_witness :
    evalPred (searchPred "eve" 0 100)
      { id := 1, username := "eve", email := "eve@x.com", age := none } = false ∧
    { id := 1, username := "eve", email := "eve@x.com", age := none } ∉
      find { rows := [{ id := 1, username := "eve", email := "eve@x.com", age := none }],
             nextId := 2 }
        (some (searchPred "eve" 0 100)) :=
  C10_null_age_excluded
    { id := 1, username := "eve", email := "eve@x.com", age := none } rfl
    "eve" 0 100
    { rows := [{ id := 1, username := "eve", email := "eve@x.com", age := none }],
      nextId := 2 }

/-! ### C4 -/

/-- C4: for all predicates P and Q, a row belongs to the result of
`and(P, Q)` exactly when it belongs to both of the results of P and of Q
(intersection), to the result of `or(P, Q)` exactly when it belongs to at
least one of them (union), and both compositions are independent of the
order of their two arguments. -/
theorem C4_and_or_intersection_union (s : UsersState) (P Q : Pred) (r : UserRow) :
    (r ∈ find s (some (.and P Q)) ↔
       r ∈ find s (some P) ∧ r ∈ find s (some Q)) ∧
    (r ∈ find s (some (.and P Q)) ↔ r ∈ find s (some (.and Q P))) ∧
    (r ∈ find s (some (.or P Q)) ↔
       r ∈ find s (some P) ∨ r ∈ find s (some Q)) ∧
    (r ∈ find s (some (.or P Q)) ↔ r ∈ find s (some (.or Q P))) := by
  simp only [find, matchesOpt, List.mem_filter, evalPred, Bool.and_eq_true,
    Bool.or_eq_true]
  constructor
  · tauto
  · constructor
    · constructor <;> rintro ⟨h1, h2⟩ <;> tauto
    · constructor
      · tauto
      · constructor <;> rintro ⟨h1, h2⟩ <;> tauto

/-! ### C5 -/

/-- C5: deleting the rows matching a predicate returns exactly the
pre-deletion state of the removed rows, and a subsequent `find` with the
same predicate returns the empty sequence. -/
theorem C5_delete_then_find_empty (s : UsersState) (p : Option Pred) :
    (deleteWhere s p).1 = find s p ∧
    find (deleteWhere s p).2 p = [] := by
  refine ⟨rfl, ?_⟩
  exact filter_not_filter_self (matchesOpt p) s.rows

/-! ### C6 -/

/-- C6: a targeted update or delete whose predicate (`eq(users.id, i)`, as
issued by `updateUser` / `deleteUser` in the user-manager CLI) matches no
stored row is not an error: the delete returns the empty sequence with the
state unchanged, and the update returns `ok` with the empty sequence and
the state unchanged, so the caller detects the not-found case from the
length of the returned sequence. -/
theorem C6_zero_match_not_error (s : UsersState) (i : Nat)
    (c : UpdatePayload)
    (hmiss : ∀ r ∈ s.rows, r.id ≠ i)
    (hu : hasDup (s.rows.map (fun r => r.username)) = false)
    (he : hasDup (s.rows.map (fun r => r.email)) = false) :
    deleteWhere s (some (.eqId i)) = ([], s) ∧
    updateWhere s (some (.eqId i)) c = .ok ([], s) := by
  have hnone : ∀ r ∈ s.rows, matchesOpt (some (.eqId i)) r = false := by
    intro r hr
    simpa [matchesOpt, evalPred] using hmiss r hr
  have hfil : s.rows.filter (matchesOpt (some (.eqId i))) = [] := by
    rw [List.filter_eq_nil_iff]
    intro r hr
    simp [hnone r hr]
  have hkeep : s.rows.filter (fun r => !(matchesOpt (some (.eqId i)) r)) = s.rows := by
    rw [List.filter_eq_self]
    intro r hr
    simp [hnone r hr]
  have hmap : s.rows.map
      (fun r => if matchesOpt (some (.eqId i)) r then applyPayload c r else r) = s.rows := by
    rw [show s.rows.map
        (fun r => if matchesOpt (some (.eqId i)) r then applyPayload c r else r) =
        s.rows.map id from List.map_congr_left (fun r hr => by simp [hnone r hr])]
    exact List.map_id s.rows
  constructor
  · simp [deleteWhere, hfil, hkeep]
  · simp [updateWhere, hmap, hu, he, hfil]

/-- Concrete instance of C6: updating or deleting id 5 in a two-user table
that has no such id returns the empty sequence and leaves the table as it
was. -/
theorem C6_zero_match_not_error_witness :
    deleteWhere
      { rows := [ { id := 1, username := "a", email := "a@x.com", age := some 0 },
                  { id := 2, username := "b", email := "b@x.com", age := some 5 } ],
        nextId := 3 }
      (some (.eqId 5)) =
      ([], { rows := [ { id := 1, username := "a", email := "a@x.com", age := some 0 },
                       { id := 2, username := "b", email := "b@x.com", age := some 5 } ],
             nextId := 3 }) ∧
    updateWhere
      { rows := [ { id := 1, username := "a", email := "a@x.com", age := some 0 },
                  { id := 2, username := "b", email := "b@x.com", age := some 5 } ],
        nextId := 3 }
      (some (.eqId 5)) { username := some "z", email := none, age := none } =
      .ok ([], { rows := [ { id := 1, username := "a", email := "a@x.com", age := some 0 },
                           { id := 2, username := "b", email := "b@x.com", age := some 5 } ],
                 nextId := 3 }) :=
  C6_zero_match_not_error
    { rows := [ { id := 1, username := "a", email := "a@x.com", age := some 0 },
                { id := 2, username := "b", email := "b@x.com", age := some 5 } ],
      nextId := 3 }
    5 { username := some "z", email := none, age := none }
    (by decide) (by decide) (by decide)

/-! ### C1 -/

/-- C1: a transaction body that signals failure at any point — a failing
operation or a caller-raised abort — leaves the visible state exactly as it
was before the transaction (full rollback) and propagates the failure with
no partial result; in particular, a body that inserts a record and then
aborts leaves a subsequent `find` for that record returning the empty
sequence. -/
theorem C1_transaction_rollback (s : UsersState) (body : List TxOp)
    (e : DbError) (hfail : runOps s body = .error e) (v : NewUser)
    (hnew : ∀ r ∈ s.rows, r.email ≠ v.email) :
    runTransaction s body = (s, .error e) ∧
    (∃ e2, runTransaction s [TxOp.insertOp [v], TxOp.abortOp] = (s, .error e2)) ∧
    find (runTransaction s [TxOp.insertOp [v], TxOp.abortOp]).1
      (some (.eqEmail v.email)) = [] := by
  have h1 : runTransaction s body = (s, .error e) := by
    simp [runTransaction, hfail]
  have habort : ∃ e2, runOps s [TxOp.insertOp [v], TxOp.abortOp] = .error e2 := by
    match h : applyOp s (.insertOp [v]) with
    | .ok s1 =>
      refine ⟨.abort, ?_⟩
      simp only [runOps]
      rw [h]
      simp [runOps, applyOp]
    | .error e1 =>
      refine ⟨e1, ?_⟩
      simp only [runOps]
      rw [h]
  obtain ⟨e2, he2⟩ := habort
  have h2 : runTransaction s [TxOp.insertOp [v], TxOp.abortOp] = (s, .error e2) := by
    simp [runTransaction, he2]
  refine ⟨h1, ⟨e2, h2⟩, ?_⟩
  rw [h2]
  simp only [find]
  rw [List.filter_eq_nil_iff]
  intro r hr
  simp only [matchesOpt, evalPred, beq_iff_eq]
  simpa using hnew r hr

/-- Concrete instance of C1: a body that deletes everything and then aborts
against a one-user table rolls back fully, and a body that inserts a fresh
record and then aborts leaves a `find` for the record empty. -/
theorem C1_transaction_rollback_witness :
    runTransaction
      { rows := [ { id := 1, username := "a", email := "a@x.com", age := some 0 } ],
        nextId := 2 }
      [TxOp.deleteOp none, TxOp.abortOp] =
      ({ rows := [ { id := 1, username := "a", email := "a@x.com", age := some 0 } ],
         nextId := 2 }, .error .abort) ∧
    (∃ e2, runTransaction
      { rows := [ { id := 1, username := "a", email := "a@x.com", age := some 0 } ],
        nextId := 2 }
      [TxOp.insertOp [ { email := "t@x.com", username := "t", age := none } ],
       TxOp.abortOp] =
      ({ rows := [ { id := 1, username := "a", email := "a@x.com", age := some 0 } ],
         nextId := 2 }, .error e2)) ∧
    find (runTransaction
      { rows := [ { id := 1, username := "a", email := "a@x.com", age := some 0 } ],
        nextId := 2 }
      [TxOp.insertOp [ { email := "t@x.com", username := "t", age := none } ],
       TxOp.abortOp]).1
      (some (.eqEmail "t@x.com")) = [] :=
  C1_transaction_rollback
    { rows := [ { id := 1, username := "a", email := "a@x.com", age := some 0 } ],
      nextId := 2 }
    [TxOp.deleteOp none, TxOp.abortOp] .abort rfl
    { email := "t@x.com", username := "t", age := none } (by decide)

/-! ### C3 -/

/-- Inserting into an age-sorted list grows its length by one. -/
theorem length_insertAgeDesc (u : UserRow) (l : List UserRow) :
    (insertAgeDesc u l).length = l.length + 1 := by
  induction l with
  | nil => rfl
  | cons v rest ih =>
    by_cases h : ageDescLE u v = true <;> simp [insertAgeDesc, h, ih]

/-- Sorting does not change the number of rows. -/
theorem length_sortAgeDesc (l : List UserRow) :
    (sortAgeDesc l).length = l.length := by
  induction l with
  | nil => rfl
  | cons u rest ih => simp [sortAgeDesc, length_insertAgeDesc, ih]

/-- Concatenating the first `n` pages of size `L` of an ordered result list
yields its first `n * L` elements. -/
theorem flatMap_paginate (L : Nat) (l : List UserRow) (n : Nat) :
    (List.range n).flatMap (fun i => paginate l L (i * L)) = l.take (n * L) := by
  induction n with
  | zero => simp
  | succ k ih =>
    rw [List.range_succ, List.flatMap_append, ih]
    simp only [List.flatMap_cons, List.flatMap_nil, List.append_nil]
    rw [Nat.succ_mul, List.take_add]
    rfl

/-- C3: for a result set of size S, `limit L offset O` returns exactly
`max 0 (min L (S - O))` rows; an offset at or beyond S gives the empty
sequence (not an error); a limit of zero gives the empty sequence; and
concatenating the pages obtained by stepping the offset by L, in order,
reproduces the full ordered result, each record appearing exactly once. -/
theorem C3_pagination (s : UsersState) (p : Option Pred) (L O n : Nat) :
    (((findPage s p L O).length : Int) =
       max 0 (min (L : Int) (((findOrdered s p).length : Int) - (O : Int)))) ∧
    ((findOrdered s p).length ≤ O → findPage s p L O = []) ∧
    findPage s p 0 O = [] ∧
    ((findOrdered s p).length ≤ n * L → concatPages s p L n = findOrdered s p) := by
  have hlen : (findPage s p L O).length = min L ((findOrdered s p).length - O) := by
    simp [findPage, paginate]
  refine ⟨?_, ?_, ?_, ?_⟩
  · rw [hlen]; omega
  · intro h
    simp [findPage, paginate, List.drop_eq_nil_of_le h]
  · simp [findPage, paginate]
  · intro h
    rw [concatPages]
    simp only [findPage]
    rw [flatMap_paginate, List.take_of_length_le h]

/-- Concrete instance of C3: on a two-user table, an offset at the size of
the result set yields the empty page, and two pages of size one rebuild the
ordered result. -/
theorem C3_pagination_witness :
    findPage
      { rows := [ { id := 1, username := "a", email := "a@x.com", age := some 0 },
                  { id := 2, username := "b", email := "b@x.com", age := some 5 } ],
        nextId := 3 } none 3 2 = [] ∧
    concatPages
      { rows := [ { id := 1, username := "a", email := "a@x.com", age := some 0 },
                  { id := 2, username := "b", email := "b@x.com", age := some 5 } ],
        nextId := 3 } none 1 2 =
      findOrdered
        { rows := [ { id := 1, username := "a", email := "a@x.com", age := some 0 },
                    { id := 2, username := "b", email := "b@x.com", age := some 5 } ],
          nextId := 3 } none :=
  ⟨(C3_pagination
      { rows := [ { id := 1, username := "a", email := "a@x.com", age := some 0 },
                  { id := 2, username := "b", email := "b@x.com", age := some 5 } ],
        nextId := 3 } none 3 2 2).2.1 (by decide),
   (C3_pagination
      { rows := [ { id := 1, username := "a", email := "a@x.com", age := some 0 },
                  { id := 2, username := "b", email := "b@x.com", age := some 5 } ],
        nextId := 3 } none 1 2 2).2.2.2 (by decide)⟩

/-! ### C7 -/

/-- C7: deleting a category removes it from `categories` and, by the
`set null` foreign-key action, clears `category_id` on every task that
referenced it; every task survives (same count, same identities, tasks not
referencing the category unchanged) — deletion never cascades to tasks. -/
theorem C7_category_delete_sets_null (d : TaskDb) (cid : Nat) :
    (deleteCategory d cid).tasks.length = d.tasks.length ∧
    (deleteCategory d cid).tasks.map (fun t => t.id) =
      d.tasks.map (fun t => t.id) ∧
    (∀ t ∈ d.tasks, t.categoryId = some cid →
      { id := t.id, title := t.title, done := t.done, createdAt := t.createdAt,
        categoryId := none } ∈ (deleteCategory d cid).tasks) ∧
    (∀ t ∈ d.tasks, t.categoryId ≠ some cid →
      t ∈ (deleteCategory d cid).tasks) ∧
    (∀ t ∈ (deleteCategory d cid).tasks, t.categoryId ≠ some cid) ∧
    (∀ c ∈ (deleteCategory d cid).categories, c.id ≠ cid) := by
  refine ⟨?_, ?_, ?_, ?_, ?_, ?_⟩
  · simp [deleteCategory]
  · rw [deleteCategory]
    simp only [List.map_map]
    refine List.map_congr_left (fun t ht => ?_)
    simp only [Function.comp_apply]
    split <;> rfl
  · intro t ht hc
    rw [deleteCategory]
    refine List.mem_map.mpr ⟨t, ht, ?_⟩
    simp [hc]
  · intro t ht hc
    rw [deleteCategory]
    refine List.mem_map.mpr ⟨t, ht, ?_⟩
    simp [hc]
  · intro t2 hmem
    rw [deleteCategory] at hmem
    obtain ⟨t, ht, hEq⟩ := List.mem_map.mp hmem
    by_cases h : (t.categoryId == some cid) = true
    · rw [if_pos h] at hEq
      rw [← hEq]
      simp
    · rw [if_neg h] at hEq
      rw [← hEq]
      simpa using h
  · intro c hmem
    rw [deleteCategory] at hmem
    have := (List.mem_filter.mp hmem).2
    simpa using this

/-- Concrete instance of C7: deleting category 1 keeps both tasks, clears
the reference of the task that pointed at it, leaves the other unchanged,
and removes the category. -/
theorem C7_category_delete_sets_null_witness :
    (deleteCategory
      { categories := [ { id := 1, name := "work" } ],
        tasks := [ { id := 1, title := "t", done := false, createdAt := 0,
                     categoryId := some 1 },
                   { id := 2, title := "u", done := true, createdAt := 0,
                     categoryId := none } ] } 1).tasks.length = 2 ∧
    ({ id := 1, title := "t", done := false, createdAt := 0,
       categoryId := none } : TaskRow) ∈
      (deleteCategory
        { categories := [ { id := 1, name := "work" } ],
          tasks := [ { id := 1, title := "t", done := false, createdAt := 0,
                       categoryId := some 1 },
                     { id := 2, title := "u", done := true, createdAt := 0,
                       categoryId := none } ] } 1).tasks ∧
    ({ id := 2, title := "u", done := true, createdAt := 0,
       categoryId := none } : TaskRow) ∈
      (deleteCategory
        { categories := [ { id := 1, name := "work" } ],
          tasks := [ { id := 1, title := "t", done := false, createdAt := 0,
                       categoryId := some 1 },
                     { id := 2, title := "u", done := true, createdAt := 0,
                       categoryId := none } ] } 1).tasks := by
  have h := C7_category_delete_sets_null
    { categories := [ { id := 1, name := "work" } ],
      tasks := [ { id := 1, title := "t", done := false, createdAt := 0,
                   categoryId := some 1 },
                 { id := 2, title := "u", done := true, createdAt := 0,
                   categoryId := none } ] } 1
  exact ⟨h.1,
    h.2.2.1 { id := 1, title := "t", done := false, createdAt := 0,
              categoryId := some 1 } (by decide) rfl,
    h.2.2.2.1 { id := 2, title := "u", done := true, createdAt := 0,
                categoryId := none } (by decide) (by decide)⟩

/-! ### C2 -/

/-- A batch creates as many rows as it has entries. -/
theorem mkRows_length (n : Nat) (vs : List NewUser) :
    (mkRows n vs).length = vs.length := by
  induction vs generalizing n with
  | nil => rfl
  | cons v rest ih => simp [mkRows, ih]

/-- The identities a batch creates are consecutive from the sequence. -/
theorem mkRows_map_id (n : Nat) (vs : List NewUser) :
    (mkRows n vs).map (fun r => r.id) = List.range' n vs.length := by
  induction vs generalizing n with
  | nil => rfl
  | cons v rest ih => simp [mkRows, mkRow, List.range'_succ, ih]

/-- The `i`-th created row comes from the `i`-th batch entry, with identity
`n + i`. -/
theorem mkRows_getElem? (n : Nat) (vs : List NewUser) (i : Nat) :
    (mkRows n vs)[i]? = (vs[i]?).map (fun v => mkRow (n + i) v) := by
  induction vs generalizing n i with
  | nil => simp [mkRows]
  | cons v rest ih =>
    cases i with
    | zero => simp [mkRows]
    | succ j =>
      simp only [mkRows, List.getElem?_cons_succ, ih (n + 1) j]
      rw [Nat.add_assoc, Nat.add_comm 1 j]

/-- C2: a batched insert either fully succeeds — every record created, the
`i`-th returned row carrying the `i`-th input's fields and the identity
`nextId + i`, identities consecutive in input order, all rows appended to
the table — or fails as a whole with an integrity violation naming the
offending field; in the spec's scenario, inserting two records that share
one email fails with the email violation and neither record is created. -/
theorem C2_batch_insert_atomic (s : UsersState) (vs : List NewUser) :
    (∀ ret s1, insertMany s vs = .ok (ret, s1) →
        ret.length = vs.length ∧
        ret.map (fun r => r.id) = List.range' s.nextId vs.length ∧
        (∀ i, ret[i]? = (vs[i]?).map (fun v => mkRow (s.nextId + i) v)) ∧
        s1.rows = s.rows ++ ret) ∧
    (∀ e, insertMany s vs = .error e →
        ∃ f, e = .integrityViolation f ∧ (f = "username" ∨ f = "email")) ∧
    (insertMany { rows := [], nextId := 1 }
        [ { email := "a@x.com", username := "a", age := none },
          { email := "a@x.com", username := "b", age := none } ] =
      .error (.integrityViolation "email") ∧
     find { rows := [], nextId := 1 } (some (.eqEmail "a@x.com")) = []) := by
  refine ⟨?_, ?_, rfl, rfl⟩
  · intro ret s1 hok
    simp only [insertMany] at hok
    split at hok
    · cases hok
    · split at hok
      · cases hok
      · simp only [Except.ok.injEq, Prod.mk.injEq] at hok
        obtain ⟨rfl, rfl⟩ := hok
        exact ⟨mkRows_length s.nextId vs, mkRows_map_id s.nextId vs,
          fun i => mkRows_getElem? s.nextId vs i, rfl⟩
  · intro e herr
    simp only [insertMany] at herr
    split at herr
    · injection herr with h
      exact ⟨"username", h.symm, Or.inl rfl⟩
    · split at herr
      · injection herr with h
        exact ⟨"email", h.symm, Or.inr rfl⟩
      · cases herr

/-- Concrete instance of C2: a singleton batch into an empty table succeeds
with identity 1 assigned, and a two-record batch sharing an email fails
with the email integrity violation. -/
theorem C2_batch_insert_atomic_witness :
    (([ { id := 1, username := "j", email := "j@x.com", age := some 0 } ] :
        List UserRow).length = 1 ∧
     ([ { id := 1, username := "j", email := "j@x.com", age := some 0 } ] :
        List UserRow).map (fun r => r.id) = List.range' 1 1 ∧
     (∀ i, ([ { id := 1, username := "j", email := "j@x.com", age := some 0 } ] :
          List UserRow)[i]? =
        (([ { email := "j@x.com", username := "j", age := none } ] :
            List NewUser)[i]?).map (fun v => mkRow (1 + i) v)) ∧
     ([ { id := 1, username := "j", email := "j@x.com", age := some 0 } ] :
        List UserRow) =
       [] ++ [ { id := 1, username := "j", email := "j@x.com", age := some 0 } ]) ∧
    (∃ f, DbError.integrityViolation "email" = .integrityViolation f ∧
       (f = "username" ∨ f = "email")) :=
  ⟨(C2_batch_insert_atomic { rows := [], nextId := 1 }
      [ { email := "j@x.com", username := "j", age := none } ]).1
      [ { id := 1, username := "j", email := "j@x.com", age := some 0 } ]
      { rows := [ { id := 1, username := "j", email := "j@x.com", age := some 0 } ],
        nextId := 2 } rfl,
   (C2_batch_insert_atomic { rows := [], nextId := 1 }
      [ { email := "a@x.com", username := "a", age := none },
        { email := "a@x.com", username := "b", age := none } ]).2.1
      (.integrityViolation "email") rfl⟩

/-! ### C8 -/

/-- A live dataset is well formed when every stored identity is below the
`serial` sequence value and no two stored rows share an identity. -/
def ValidState (s : UsersState) : Prop :=
  (∀ r ∈ s.rows, r.id < s.nextId) ∧ (s.rows.map (fun r => r.id)).Nodup

/-- Identities created by a batch lie in `[n, n + batch length)`. -/
theorem mkRows_id_bounds (n : Nat) (vs : List NewUser) :
    ∀ r ∈ mkRows n vs, n ≤ r.id ∧ r.id < n + vs.length := by
  induction vs generalizing n with
  | nil => intro r hr; cases hr
  | cons v rest ih =>
    intro r hr
    rcases List.mem_cons.mp hr with rfl | hr
    · simp only [mkRow, List.length_cons]
      omega
    · have := ih (n + 1) r hr
      simp only [List.length_cons]
      omega

/-- The state component of a successful update carries exactly the
identities of the pre-update state, in table order. -/
theorem updateWhere_map_id (s : UsersState) (p : Option Pred)
    (c : UpdatePayload) (ret : List UserRow) (s1 : UsersState)
    (h : updateWhere s p c = .ok (ret, s1)) :
    s1.rows.map (fun r => r.id) = s.rows.map (fun r => r.id) := by
  simp only [updateWhere] at h
  split at h
  · cases h
  · split at h
    · cases h
    · simp only [Except.ok.injEq, Prod.mk.injEq] at h
      obtain ⟨rfl, rfl⟩ := h
      simp only [List.map_map]
      refine List.map_congr_left (fun r hr => ?_)
      simp only [Function.comp_apply]
      split <;> rfl

/-- C8: identities are immutable and never reused.  Updates never change
any row's identity (the payload has no identity field and applying it
preserves `id`); on a well-formed dataset, the rows created by an insert
carry identities distinct from every live row's, and insert, update and
delete all preserve well-formedness, so no identity is ever assigned twice
within a live dataset. -/
theorem C8_identity_immutable (s : UsersState) (p : Option Pred)
    (c : UpdatePayload) (vs : List NewUser) :
    (∀ r, (applyPayload c r).id = r.id) ∧
    (∀ ret s1, updateWhere s p c = .ok (ret, s1) →
        s1.rows.map (fun r => r.id) = s.rows.map (fun r => r.id)) ∧
    (ValidState s →
      (∀ ret s1, insertMany s vs = .ok (ret, s1) →
          (∀ r ∈ ret, ∀ r0 ∈ s.rows, r.id ≠ r0.id) ∧ ValidState s1) ∧
      ValidState (deleteWhere s p).2 ∧
      (∀ ret s1, updateWhere s p c = .ok (ret, s1) → ValidState s1)) := by
  refine ⟨fun r => rfl, fun ret s1 h => updateWhere_map_id s p c ret s1 h, ?_⟩
  intro hv
  obtain ⟨hbound, hnodup⟩ := hv
  refine ⟨?_, ?_, ?_⟩
  · intro ret s1 hok
    simp only [insertMany] at hok
    split at hok
    · cases hok
    · split at hok
      · cases hok
      · simp only [Except.ok.injEq, Prod.mk.injEq] at hok
        obtain ⟨rfl, rfl⟩ := hok
        constructor
        · intro r hr r0 hr0
          have h1 := (mkRows_id_bounds s.nextId vs r hr).1
          have h2 := hbound r0 hr0
          omega
        · constructor
          · intro r hr
            simp only [List.mem_append] at hr
            show r.id < s.nextId + vs.length
            rcases hr with hr | hr
            · have := hbound r hr
              omega
            · exact (mkRows_id_bounds s.nextId vs r hr).2
          · simp only [List.map_append, mkRows_map_id]
            refine hnodup.append (List.nodup_range' s.nextId vs.length) ?_
            intro a ha ha'
            obtain ⟨r0, hr0, rfl⟩ := List.mem_map.mp ha
            have h1 := hbound r0 hr0
            have h2 := (List.mem_range'_1.mp ha').1
            omega
  · constructor
    · intro r hr
      exact hbound r (List.mem_of_mem_filter hr)
    · exact hnodup.sublist ((List.filter_sublist s.rows).map (fun r => r.id))
  · intro ret s1 hok
    constructor
    · intro r hr
      have hids := updateWhere_map_id s p c ret s1 hok
      have hmem : r.id ∈ s1.rows.map (fun r => r.id) :=
        List.mem_map_of_mem (fun r => r.id) hr
      rw [hids] at hmem
      obtain ⟨r0, hr0, hEq⟩ := List.mem_map.mp hmem
      have hnid : s1.nextId = s.nextId := by
        simp only [updateWhere] at hok
        split at hok
        · cases hok
        · split at hok
          · cases hok
          · simp only [Except.ok.injEq, Prod.mk.injEq] at hok
            obtain ⟨rfl, rfl⟩ := hok
            rfl
      rw [hnid, ← hEq]
      exact hbound r0 hr0
    · rw [updateWhere_map_id s p c ret s1 hok]
      exact hnodup

/-- Concrete instance of C8: on a well-formed one-user table, an update
keeps the identity, an insert assigns the fresh identity 2, and deletion
preserves well-formedness. -/
theorem C8_identity_immutable_witness :
    (({ rows := [ { id := 1, username := "z", email := "a@x.com", age := some 0 } ],
        nextId := 2 } : UsersState).rows.map (fun r => r.id) =
      ([ { id := 1, username := "a", email := "a@x.com", age := some 0 } ] :
        List UserRow).map (fun r => r.id)) ∧
    ((∀ r ∈ ([ { id := 2, username := "b", email := "b@x.com", age := some 0 } ] :
          List UserRow),
        ∀ r0 ∈ ([ { id := 1, username := "a", email := "a@x.com", age := some 0 } ] :
          List UserRow), r.id ≠ r0.id) ∧
      ValidState
        { rows := [ { id := 1, username := "a", email := "a@x.com", age := some 0 },
                    { id := 2, username := "b", email := "b@x.com", age := some 0 } ],
          nextId := 3 }) ∧
    ValidState (deleteWhere
      { rows := [ { id := 1, username := "a", email := "a@x.com", age := some 0 } ],
        nextId := 2 } (some (.eqId 1))).2 := by
  have h := C8_identity_immutable
    { rows := [ { id := 1, username := "a", email := "a@x.com", age := some 0 } ],
      nextId := 2 }
    (some (.eqId 1)) { username := some "z", email := none, age := none }
    [ { email := "b@x.com", username := "b", age := none } ]
  have hv := h.2.2 ⟨by decide, by decide⟩
  exact ⟨h.2.1
      [ { id := 1, username := "z", email := "a@x.com", age := some 0 } ]
      { rows := [ { id := 1, username := "z", email := "a@x.com", age := some 0 } ],
        nextId := 2 } rfl,
    hv.1 [ { id := 2, username := "b", email := "b@x.com", age := some 0 } ]
      { rows := [ { id := 1, username := "a", email := "a@x.com", age := some 0 },
                  { id := 2, username := "b", email := "b@x.com", age := some 0 } ],
        nextId := 3 } rfl,
    hv.2.1⟩

end DrizzleDemo
